import Mathlib

/-!
Verification of the FlashNet screen-data transmitter (src/pc_sender.js).

The transmitter is one function, flashnetSend(pulsewidth, data, elem).
It first builds a queue of pulse widths:
  queue = [1 × 14, 3]                     -- 14 sync pulses, one start pulse
  encode(b): checksum += b; for mask = 0x80 .. 0x01: push (b & mask ? 2 : 1)
  data.forEach(encode); encode(checksum & 0xff); queue.push(4)
and then runs a timer callback every pulsewidth milliseconds:
  if queue empty: elem.backgroundColor := "#ccc"; clearInterval
  else if --queue[0] <= 0: shift; state := !state;
       elem.backgroundColor := state ? "#888" : "#eee"

The embedding below models the queue construction as pure functions on
lists of naturals and the timer callback as a step function on an explicit
transmitter state.  A DOM element is modelled by its backgroundColor plus
one abstract field standing for all its other properties.
-/

namespace FlashNet

/-- A DOM element, as far as the transmitter can touch it: its
style.backgroundColor, plus an abstract stand-in for every other property. -/
structure Elem where
  backgroundColor : String
  other : Nat
deriving DecidableEq, Repr

/-- The bit masks walked by the encode loop: 0x80 down to 0x01. -/
def bitMasks : List Nat := [128, 64, 32, 16, 8, 4, 2, 1]

/-- One byte's pulse widths, MSB first: a set bit is pushed as width 2, a
clear bit as width 1 (source line 46-47). -/
def encodeByteBits (b : Nat) : List Nat :=
  bitMasks.map (fun mask => if b &&& mask ≠ 0 then 2 else 1)

/-- The encoder's mutable closure state: the running checksum and the
queue of pulse widths built so far. -/
structure EncState where
  checksum : Nat
  queue : List Nat
deriving DecidableEq, Repr

/-- The inner encode(b) of flashnetSend: add b to the checksum and push
the eight bit pulses of b (source lines 43-48). -/
def encodeStep (s : EncState) (b : Nat) : EncState :=
  { checksum := s.checksum + b, queue := s.queue ++ encodeByteBits b }

/-- The queue before any byte is encoded: 14 sync pulses of width 1 and
one start pulse of width 3 (source line 37). -/
def initialQueue : List Nat := [1, 1, 1, 1, 1, 1, 1, 1, 1, 1, 1, 1, 1, 1, 3]

/-- Encoder state after data.forEach(encode) (source line 51). -/
def flashnetEnc (data : List Nat) : EncState :=
  data.foldl encodeStep { checksum := 0, queue := initialQueue }

/-- The checksum byte the sender transmits: the low 8 bits of the running
checksum after all data bytes (source line 54, checksum & 0xff). -/
def flashnetChecksumByte (data : List Nat) : Nat :=
  (flashnetEnc data).checksum &&& 255

/-- The complete pulse-width queue flashnetSend hands to its timer:
data bytes, then encode(checksum & 0xff), then the end pulse of width 4
(source lines 51-57). -/
def flashnetQueue (data : List Nat) : List Nat :=
  (encodeStep (flashnetEnc data) (flashnetChecksumByte data)).queue ++ [4]

/-- The transmitter's state between timer ticks: the remaining queue, the
binary flash state (source: let state = 0, toggled by state = !state; we
model it as a Bool starting false), the element being driven, and whether
the interval timer is still registered. -/
structure TxState where
  queue : List Nat
  state : Bool
  elem : Elem
  timerOn : Bool
deriving DecidableEq, Repr

/-- The state right after flashnetSend returns, before the first timer
tick: the queue is fully built, state is 0, the element has not been
written to, the interval timer is registered. -/
def flashnetInit (data : List Nat) (e : Elem) : TxState :=
  { queue := flashnetQueue data, state := false, elem := e, timerOn := true }

/-- One timer tick (source lines 60-72).  With the timer cleared the
callback no longer runs, modelled as the identity.  The source pops when
the pre-decrement --queue[0] is <= 0, i.e. when the head was <= 1; for the
naturals that ever occur in the queue (all >= 1) this is head = 1. -/
def tick (s : TxState) : TxState :=
  if s.timerOn then
    match s.queue with
    | [] =>
        { s with elem := { s.elem with backgroundColor := "#ccc" },
                 timerOn := false }
    | w :: rest =>
        if w ≤ 1 then
          { s with queue := rest,
                   state := !s.state,
                   elem := { s.elem with
                       backgroundColor := if !s.state then "#888" else "#eee" } }
        else
          { s with queue := (w - 1) :: rest }
  else s

/-- Claim-side view of one byte's bit pulses: its 8 bits most significant
first, a 1-bit as width 2, a 0-bit as width 1. -/
def specBits (b : Nat) : List Nat :=
  (List.range 8).map (fun i => if Nat.testBit b (7 - i) then 2 else 1)

/-- Modelled from the spec (section 4.1 and 7): the encode contract the
spec states, with the length precondition the sender source does not
check: payloads longer than 70 bytes fail with PayloadTooLarge. -/
def specEncodeContract (data : List Nat) : Except String (List Nat) :=
  if data.length ≤ 70 then
    Except.ok (List.replicate 14 1 ++ [3] ++ (data.map specBits).flatten
      ++ specBits (data.sum % 256) ++ [4])
  else
    Except.error "PayloadTooLarge"

/-- Invariant tying the flash state and the element's color to the number
of pulse boundaries passed so far: with L the initial queue length, the
boundary count is L minus the current queue length; the state is its
parity, and the color matches the state once at least one boundary passed. -/
def ColorInv (L : Nat) (e : Elem) (s : TxState) : Prop :=
  s.queue.length ≤ L ∧
  s.elem.other = e.other ∧
  (s.timerOn = true →
    s.state = decide ((L - s.queue.length) % 2 = 1) ∧
    (s.queue.length = L → s.elem = e) ∧
    (s.queue.length < L →
      s.elem.backgroundColor = if s.state then "#888" else "#eee")) ∧
  (s.timerOn = false → s.elem.backgroundColor = "#ccc")

theorem bitPulse_eq (b k m : Nat) (hm : m = 2 ^ k) :
    (if b &&& m ≠ 0 then (2 : Nat) else 1) = if b.testBit k then 2 else 1 := by
  subst hm
  rw [Nat.and_two_pow]
  cases h : b.testBit k <;> simp

theorem encodeByteBits_explicit (b : Nat) : encodeByteBits b =
    [if b &&& 128 ≠ 0 then 2 else 1, if b &&& 64 ≠ 0 then 2 else 1,
     if b &&& 32 ≠ 0 then 2 else 1, if b &&& 16 ≠ 0 then 2 else 1,
     if b &&& 8 ≠ 0 then 2 else 1, if b &&& 4 ≠ 0 then 2 else 1,
     if b &&& 2 ≠ 0 then 2 else 1, if b &&& 1 ≠ 0 then 2 else 1] := rfl

theorem specBits_explicit (b : Nat) : specBits b =
    [if b.testBit 7 then 2 else 1, if b.testBit 6 then 2 else 1,
     if b.testBit 5 then 2 else 1, if b.testBit 4 then 2 else 1,
     if b.testBit 3 then 2 else 1, if b.testBit 2 then 2 else 1,
     if b.testBit 1 then 2 else 1, if b.testBit 0 then 2 else 1] := rfl

theorem encodeByteBits_eq_specBits (b : Nat) : encodeByteBits b = specBits b := by
  rw [encodeByteBits_explicit, specBits_explicit,
    bitPulse_eq b 7 128 (by norm_num), bitPulse_eq b 6 64 (by norm_num),
    bitPulse_eq b 5 32 (by norm_num), bitPulse_eq b 4 16 (by norm_num),
    bitPulse_eq b 3 8 (by norm_num), bitPulse_eq b 2 4 (by norm_num),
    bitPulse_eq b 1 2 (by norm_num), bitPulse_eq b 0 1 (by norm_num)]

theorem foldl_encodeStep_checksum (data : List Nat) (s : EncState) :
    (data.foldl encodeStep s).checksum = s.checksum + data.sum := by
  induction data generalizing s with
  | nil => simp
  | cons b rest ih => simp [encodeStep, ih, Nat.add_assoc]

theorem foldl_encodeStep_queue (data : List Nat) (s : EncState) :
    (data.foldl encodeStep s).queue = s.queue ++ (data.map encodeByteBits).flatten := by
  induction data generalizing s with
  | nil => simp
  | cons b rest ih => simp [encodeStep, ih]

theorem flashnetChecksumByte_eq (data : List Nat) :
    flashnetChecksumByte data = data.sum % 256 := by
  have h := Nat.and_pow_two_sub_one_eq_mod data.sum 8
  norm_num at h
  simp [flashnetChecksumByte, flashnetEnc, foldl_encodeStep_checksum, h]

theorem flashnetQueue_eq (data : List Nat) :
    flashnetQueue data = List.replicate 14 1 ++ [3] ++ (data.map encodeByteBits).flatten
      ++ encodeByteBits (data.sum % 256) ++ [4] := by
  have hinit : initialQueue = List.replicate 14 1 ++ [3] := by decide
  simp [flashnetQueue, encodeStep, flashnetEnc, foldl_encodeStep_queue,
    flashnetChecksumByte_eq, hinit, List.append_assoc]

/-- C1: for every payload of at most 70 bytes, the pulse-width queue built
by flashnetSend is exactly 14 SYNC pulses of width 1, one START pulse of
width 3, the 8 bits of each payload byte MSB-first (0-bit as width 1,
1-bit as width 2), the 8 bits of the checksum byte (sum mod 256) encoded
the same way, and one END pulse of width 4 — the canonical ratios SYNC=1,
BIT0=1, BIT1=2, START=3, END=4. -/
theorem flashnet_frame_layout (data : List Nat)
    (_hlen : data.length ≤ 70) (_hbytes : ∀ b ∈ data, b ≤ 255) :
    flashnetQueue data = List.replicate 14 1 ++ [3] ++ (data.map specBits).flatten
      ++ specBits (data.sum % 256) ++ [4] := by
  have h : encodeByteBits = specBits := funext encodeByteBits_eq_specBits
  rw [flashnetQueue_eq, h]

theorem flashnet_frame_layout_witness :
    flashnetQueue [0] = List.replicate 14 1 ++ [3] ++ ([0].map specBits).flatten
      ++ specBits (List.sum [0] % 256) ++ [4] :=
  flashnet_frame_layout [0] (by decide) (by decide)

/-- C2: for every payload of bytes in 0..255, the checksum byte embedded
in the frame — the byte whose bits are the last queued before the END
pulse — is the sum of the payload bytes modulo 256: the code's
checksum & 0xff equals sum(payload) mod 256. -/
theorem flashnet_checksum_embedded (data : List Nat)
    (_hbytes : ∀ b ∈ data, b ≤ 255) :
    flashnetChecksumByte data = data.sum % 256 ∧
    flashnetQueue data
      = (flashnetEnc data).queue ++ encodeByteBits (data.sum % 256) ++ [4] := by
  refine ⟨flashnetChecksumByte_eq data, ?_⟩
  simp [flashnetQueue, encodeStep, flashnetChecksumByte_eq, List.append_assoc]

theorem flashnet_checksum_embedded_witness :
    flashnetChecksumByte [200, 100] = List.sum [200, 100] % 256 ∧
    flashnetQueue [200, 100]
      = (flashnetEnc [200, 100]).queue
        ++ encodeByteBits (List.sum [200, 100] % 256) ++ [4] :=
  flashnet_checksum_embedded [200, 100] (by decide)

/-- C4: for the payload [0x48, 0x65, 0x6C, 0x6C, 0x6F] the checksum byte
is 0xF4 (500 mod 256) and the queued sequence is exactly 14 SYNC pulses,
one START pulse, the bits of 0x48, 0x65, 0x6C, 0x6C, 0x6F, 0xF4 MSB-first
as BIT0/BIT1 widths, and one END pulse. -/
theorem flashnet_hello_frame :
    flashnetChecksumByte [0x48, 0x65, 0x6C, 0x6C, 0x6F] = 0xF4 ∧
    flashnetQueue [0x48, 0x65, 0x6C, 0x6C, 0x6F]
      = List.replicate 14 1 ++ [3]
        ++ ([1, 2, 1, 1, 2, 1, 1, 1] ++ [1, 2, 2, 1, 1, 2, 1, 2]
            ++ [1, 2, 2, 1, 2, 2, 1, 1] ++ [1, 2, 2, 1, 2, 2, 1, 1]
            ++ [1, 2, 2, 1, 2, 2, 2, 2] ++ [2, 2, 2, 2, 1, 2, 1, 1])
        ++ [4] := by
  constructor <;> decide

theorem tick_timerOff (s : TxState) (h : s.timerOn = false) : tick s = s := by
  simp [tick, h]

theorem tick_emptyQueue (s : TxState) (ht : s.timerOn = true) (hq : s.queue = []) :
    tick s = { s with elem := { s.elem with backgroundColor := "#ccc" },
                      timerOn := false } := by
  simp [tick, ht, hq]

theorem tick_pop (s : TxState) (w : Nat) (rest : List Nat) (ht : s.timerOn = true)
    (hq : s.queue = w :: rest) (hw : w ≤ 1) :
    tick s = { s with
      queue := rest,
      state := !s.state,
      elem := { s.elem with
        backgroundColor := if !s.state then "#888" else "#eee" } } := by
  simp [tick, ht, hq, hw]

theorem tick_dec (s : TxState) (w : Nat) (rest : List Nat) (ht : s.timerOn = true)
    (hq : s.queue = w :: rest) (hw : 2 ≤ w) :
    tick s = { s with queue := (w - 1) :: rest } := by
  have hw1 : ¬ w ≤ 1 := by omega
  simp [tick, ht, hq, hw1]

theorem tick_hold (s : TxState) (n : Nat) (rest : List Nat) (ht : s.timerOn = true)
    (hq : s.queue = n :: rest) :
    ∀ k, k < n → tick^[k] s = { s with queue := (n - k) :: rest } := by
  intro k
  induction k with
  | zero =>
    intro _
    simp only [Function.iterate_zero, id_eq, Nat.sub_zero]
    cases s
    simp_all
  | succ k ih =>
    intro hk
    rw [Function.iterate_succ_apply', ih (by omega)]
    have h2 : (2 : Nat) ≤ n - k := by omega
    rw [tick_dec ({ s with queue := (n - k) :: rest }) (n - k) rest ht rfl h2]
    have : n - k - 1 = n - (k + 1) := by omega
    rw [this]

/-- C5: on every tick with a non-empty queue the head count is
decremented; when it reaches zero the head is popped, the light state is
flipped and the new state's color is written to the element; otherwise
state and element are held unchanged — so a pulse queued with width n
holds its light state for exactly n ticks, and the n-th tick performs the
pop, flip and write. -/
theorem tick_pulse_duration (s : TxState) (n : Nat) (rest : List Nat)
    (ht : s.timerOn = true) (hq : s.queue = n :: rest) (hn : 1 ≤ n) :
    (∀ k, k < n → tick^[k] s = { s with queue := (n - k) :: rest }) ∧
    tick^[n] s = { s with
      queue := rest,
      state := !s.state,
      elem := { s.elem with
        backgroundColor := if !s.state then "#888" else "#eee" } } := by
  refine ⟨tick_hold s n rest ht hq, ?_⟩
  obtain ⟨m, rfl⟩ : ∃ m, n = m + 1 := ⟨n - 1, by omega⟩
  rw [Function.iterate_succ_apply']
  by_cases hm : m = 0
  · subst hm
    simp only [Function.iterate_zero, id_eq]
    exact tick_pop s 1 rest ht (by simpa using hq) (by omega)
  · rw [tick_hold s (m + 1) rest ht hq m (by omega)]
    have h1 : m + 1 - m = 1 := by omega
    rw [h1]
    rw [tick_pop ({ s with queue := (1 : Nat) :: rest }) 1 rest ht rfl (by omega)]

theorem tick_pulse_duration_witness :
    tick^[1] (⟨[2, 5], false, ⟨"ivory", 3⟩, true⟩ : TxState)
      = (⟨[1, 5], false, ⟨"ivory", 3⟩, true⟩ : TxState) ∧
    tick^[2] (⟨[2, 5], false, ⟨"ivory", 3⟩, true⟩ : TxState)
      = (⟨[5], true, ⟨"#888", 3⟩, true⟩ : TxState) :=
  ⟨(tick_pulse_duration ⟨[2, 5], false, ⟨"ivory", 3⟩, true⟩ 2 [5] rfl rfl
      (by omega)).1 1 (by omega),
   (tick_pulse_duration ⟨[2, 5], false, ⟨"ivory", 3⟩, true⟩ 2 [5] rfl rfl
      (by omega)).2⟩

/-- C6: the sole terminal condition is queue exhaustion: on the first
tick with an empty queue the element is set to the neutral color and the
timer cleared; with the timer cleared no tick modifies anything; and the
timer can only become cleared when the queue is empty. -/
theorem tick_terminal_condition (s : TxState) :
    (s.timerOn = true → s.queue = [] →
      tick s = { s with
        elem := { s.elem with backgroundColor := "#ccc" },
        timerOn := false }) ∧
    (s.timerOn = false → tick s = s) ∧
    (s.timerOn = true → (tick s).timerOn = false → s.queue = []) := by
  refine ⟨tick_emptyQueue s, tick_timerOff s, ?_⟩
  intro ht hoff
  by_contra hne
  obtain ⟨w, rest, hq⟩ := List.exists_cons_of_ne_nil hne
  by_cases hw : w ≤ 1
  · rw [tick_pop s w rest ht hq hw] at hoff
    simp [ht] at hoff
  · rw [tick_dec s w rest ht hq (by omega)] at hoff
    simp [ht] at hoff

theorem tick_terminal_condition_witness :
    tick ⟨[], false, ⟨"abc", 7⟩, true⟩ = (⟨[], false, ⟨"#ccc", 7⟩, false⟩ : TxState) ∧
    tick ⟨[5], true, ⟨"abc", 7⟩, false⟩ = (⟨[5], true, ⟨"abc", 7⟩, false⟩ : TxState) ∧
    (⟨[], false, ⟨"abc", 7⟩, true⟩ : TxState).queue = [] :=
  ⟨(tick_terminal_condition ⟨[], false, ⟨"abc", 7⟩, true⟩).1 rfl rfl,
   (tick_terminal_condition ⟨[5], true, ⟨"abc", 7⟩, false⟩).2.1 rfl,
   (tick_terminal_condition ⟨[], false, ⟨"abc", 7⟩, true⟩).2.2 rfl (by decide)⟩

theorem encodeByteBits_mem (b w : Nat) (hw : w ∈ encodeByteBits b) : w = 1 ∨ w = 2 := by
  simp only [encodeByteBits, List.mem_map] at hw
  obtain ⟨m, _, rfl⟩ := hw
  by_cases h : b &&& m ≠ 0 <;> simp [h]

theorem encodeByteBits_length (b : Nat) : (encodeByteBits b).length = 8 := rfl

theorem flashnetQueue_pos (data : List Nat) : ∀ w ∈ flashnetQueue data, 1 ≤ w := by
  intro w hw
  rw [flashnetQueue_eq] at hw
  rcases List.mem_append.1 hw with h | h
  · rcases List.mem_append.1 h with h | h
    · rcases List.mem_append.1 h with h | h
      · rcases List.mem_append.1 h with h | h
        · have := List.eq_of_mem_replicate h; omega
        · simp at h; omega
      · rw [List.mem_flatten] at h
        obtain ⟨l, hl, hwl⟩ := h
        rw [List.mem_map] at hl
        obtain ⟨b, _, rfl⟩ := hl
        rcases encodeByteBits_mem b w hwl with rfl | rfl <;> omega
    · rcases encodeByteBits_mem _ w h with rfl | rfl <;> omega
  · simp at h; omega

theorem flatten_bits_length (data : List Nat) :
    ((data.map encodeByteBits).flatten).length = 8 * data.length := by
  induction data with
  | nil => simp
  | cons b rest ih =>
    simp only [List.map_cons, List.flatten_cons, List.length_append,
      encodeByteBits_length, ih, List.length_cons]
    omega

theorem flashnetQueue_length (data : List Nat) :
    (flashnetQueue data).length = 8 * data.length + 24 := by
  rw [flashnetQueue_eq]
  simp only [List.length_append, flatten_bits_length, List.length_replicate,
    List.length_cons, List.length_nil, encodeByteBits_length]
  omega

theorem tick_sum_step (s : TxState) (ht : s.timerOn = true) (hne : s.queue ≠ [])
    (hpos : ∀ w ∈ s.queue, 1 ≤ w) :
    (tick s).timerOn = true ∧ (tick s).queue.sum + 1 = s.queue.sum ∧
    ∀ w ∈ (tick s).queue, 1 ≤ w := by
  obtain ⟨w, rest, hq⟩ := List.exists_cons_of_ne_nil hne
  have hw1 : 1 ≤ w := hpos w (by rw [hq]; exact List.mem_cons_self _ _)
  by_cases hw : w ≤ 1
  · rw [tick_pop s w rest ht hq hw]
    refine ⟨ht, ?_, ?_⟩
    · simp [hq]; omega
    · intro v hv
      exact hpos v (by rw [hq]; exact List.mem_cons_of_mem _ hv)
  · rw [tick_dec s w rest ht hq (by omega)]
    refine ⟨ht, ?_, ?_⟩
    · simp [hq]; omega
    · intro v hv
      rcases List.mem_cons.1 hv with rfl | hv
      · omega
      · exact hpos v (by rw [hq]; exact List.mem_cons_of_mem _ hv)

theorem run_drain (j : Nat) : ∀ s : TxState, s.timerOn = true →
    (∀ w ∈ s.queue, 1 ≤ w) → j ≤ s.queue.sum →
    (tick^[j] s).timerOn = true ∧ (tick^[j] s).queue.sum = s.queue.sum - j ∧
    ∀ w ∈ (tick^[j] s).queue, 1 ≤ w := by
  induction j with
  | zero =>
    intro s ht hpos _
    refine ⟨by simpa using ht, by simp, by simpa using hpos⟩
  | succ j ih =>
    intro s ht hpos hj
    have hne : s.queue ≠ [] := by
      intro h
      rw [h] at hj
      simp at hj
    obtain ⟨h1, h2, h3⟩ := tick_sum_step s ht hne hpos
    rw [Function.iterate_succ_apply]
    obtain ⟨g1, g2, g3⟩ := ih (tick s) h1 h3 (by omega)
    exact ⟨g1, by omega, g3⟩

theorem flashnetQueue_sum_decomp (data : List Nat) :
    (flashnetQueue data).sum
      = 21 + ((data.map encodeByteBits).flatten.sum
        + (encodeByteBits (data.sum % 256)).sum) := by
  rw [flashnetQueue_eq]
  simp [List.sum_append, List.sum_replicate]
  omega

theorem flashnetInit_queue (data : List Nat) (e : Elem) :
    (flashnetInit data e).queue = flashnetQueue data := rfl

/-- C9: the queue built for an n-byte payload has exactly 8n + 24
entries, its total width S is 14 + 3 + 4 plus the widths of the 8(n+1)
bit pulses, the timer is still registered on every tick up to S, and it
is cleared on tick S + 1 — the transmission terminates after exactly
S + 1 ticks. -/
theorem flashnet_termination (data : List Nat) (e : Elem) :
    (flashnetQueue data).length = 8 * data.length + 24 ∧
    (flashnetQueue data).sum
      = 21 + ((data.map encodeByteBits).flatten.sum
        + (encodeByteBits (data.sum % 256)).sum) ∧
    (∀ j, j ≤ (flashnetQueue data).sum →
      (tick^[j] (flashnetInit data e)).timerOn = true) ∧
    (tick^[(flashnetQueue data).sum + 1] (flashnetInit data e)).timerOn = false := by
  have hpos : ∀ w ∈ (flashnetInit data e).queue, 1 ≤ w := by
    rw [flashnetInit_queue]
    exact flashnetQueue_pos data
  refine ⟨flashnetQueue_length data, flashnetQueue_sum_decomp data, ?_, ?_⟩
  · intro j hj
    exact (run_drain j (flashnetInit data e) rfl hpos hj).1
  · have h := run_drain (flashnetQueue data).sum (flashnetInit data e) rfl hpos le_rfl
    obtain ⟨h1, h2, h3⟩ := h
    have hq : (tick^[(flashnetQueue data).sum] (flashnetInit data e)).queue = [] := by
      rcases hqe : (tick^[(flashnetQueue data).sum] (flashnetInit data e)).queue
        with _ | ⟨w, rest⟩
      · rfl
      · have hw := h3 w (by rw [hqe]; exact List.mem_cons_self _ _)
        rw [hqe] at h2
        rw [flashnetInit_queue] at h2
        simp [List.sum_cons] at h2
        omega
    rw [Function.iterate_succ_apply', tick_emptyQueue _ h1 hq]

theorem flashnet_termination_witness :
    (flashnetQueue []).length = 8 * ([] : List Nat).length + 24 ∧
    (tick^[29] (flashnetInit [] ⟨"w", 0⟩)).timerOn = true ∧
    (tick^[30] (flashnetInit [] ⟨"w", 0⟩)).timerOn = false :=
  ⟨(flashnet_termination [] ⟨"w", 0⟩).1,
   (flashnet_termination [] ⟨"w", 0⟩).2.2.1 29 (by decide),
   (flashnet_termination [] ⟨"w", 0⟩).2.2.2⟩

theorem decide_mod_two_succ (a : Nat) :
    decide ((a + 1) % 2 = 1) = !decide (a % 2 = 1) := by
  rcases Nat.mod_two_eq_zero_or_one a with h | h <;> simp [Nat.add_mod, h]

theorem colorInv_tick (L : Nat) (e : Elem) (s : TxState) (h : ColorInv L e s) :
    ColorInv L e (tick s) := by
  obtain ⟨hlen, hoth, hon, hoff⟩ := h
  by_cases ht : s.timerOn = true
  · rcases hq : s.queue with _ | ⟨w, rest⟩
    · rw [tick_emptyQueue s ht hq]
      exact ⟨hlen, hoth, by intro hf; simp at hf, fun _ => rfl⟩
    · obtain ⟨hst, hfresh, hmid⟩ := hon ht
      rw [hq] at hst hfresh hmid hlen
      simp only [List.length_cons] at hst hfresh hmid hlen
      by_cases hw : w ≤ 1
      · rw [tick_pop s w rest ht hq hw]
        refine ⟨?_, hoth, ?_, ?_⟩
        · show rest.length ≤ L
          omega
        · intro _
          refine ⟨?_, ?_, ?_⟩
          · show (!s.state) = decide ((L - rest.length) % 2 = 1)
            have harith : L - rest.length = L - (rest.length + 1) + 1 := by omega
            rw [hst, harith, decide_mod_two_succ]
          · intro hl
            exfalso
            revert hl
            show rest.length = L → False
            omega
          · intro _
            rfl
        · intro hf
          exact absurd (show s.timerOn = false from hf) (by simp [ht])
      · rw [tick_dec s w rest ht hq (by omega)]
        refine ⟨?_, hoth, ?_, ?_⟩
        · show rest.length + 1 ≤ L
          omega
        · intro _
          exact ⟨hst, hfresh, hmid⟩
        · intro hf
          exact absurd (show s.timerOn = false from hf) (by simp [ht])
  · have ht' : s.timerOn = false := by simpa using ht
    rw [tick_timerOff s ht']
    exact ⟨hlen, hoth, hon, hoff⟩

theorem colorInv_run (L : Nat) (e : Elem) (s : TxState) (h : ColorInv L e s)
    (n : Nat) : ColorInv L e (tick^[n] s) := by
  induction n with
  | zero => simpa using h
  | succ n ih =>
    rw [Function.iterate_succ_apply']
    exact colorInv_tick L e _ ih

theorem colorInv_init (data : List Nat) (e : Elem) :
    ColorInv (flashnetQueue data).length e (flashnetInit data e) := by
  refine ⟨le_rfl, rfl, ?_, ?_⟩
  · intro _
    refine ⟨?_, fun _ => rfl, ?_⟩
    · show false = decide (((flashnetQueue data).length
        - (flashnetQueue data).length) % 2 = 1)
      simp
    · intro hl
      exfalso
      exact absurd hl (by show ¬ (flashnetQueue data).length
        < (flashnetQueue data).length; omega)
  · intro hf
    exact absurd (show true = false from hf) (by simp)

/-- C8: during a transmission the element's color strictly alternates at
pulse boundaries: with k the number of boundaries passed (the initial
queue length minus the current queue length), while the timer runs the
color is still the initial one when k = 0, "#888" when k is odd and
"#eee" when k is positive and even; after the timer stops it is "#ccc";
and no value outside the initial color, "#888", "#eee", "#ccc" is ever
shown. -/
theorem flashnet_color_alternation (data : List Nat) (e : Elem) (n : Nat) :
    ((tick^[n] (flashnetInit data e)).timerOn = true →
      ((flashnetQueue data).length - (tick^[n] (flashnetInit data e)).queue.length = 0 →
        (tick^[n] (flashnetInit data e)).elem.backgroundColor = e.backgroundColor) ∧
      (((flashnetQueue data).length
          - (tick^[n] (flashnetInit data e)).queue.length) % 2 = 1 →
        (tick^[n] (flashnetInit data e)).elem.backgroundColor = "#888") ∧
      ((flashnetQueue data).length - (tick^[n] (flashnetInit data e)).queue.length ≠ 0 →
        ((flashnetQueue data).length
          - (tick^[n] (flashnetInit data e)).queue.length) % 2 = 0 →
        (tick^[n] (flashnetInit data e)).elem.backgroundColor = "#eee")) ∧
    ((tick^[n] (flashnetInit data e)).timerOn = false →
      (tick^[n] (flashnetInit data e)).elem.backgroundColor = "#ccc") ∧
    ((tick^[n] (flashnetInit data e)).elem.backgroundColor = e.backgroundColor ∨
      (tick^[n] (flashnetInit data e)).elem.backgroundColor = "#888" ∨
      (tick^[n] (flashnetInit data e)).elem.backgroundColor = "#eee" ∨
      (tick^[n] (flashnetInit data e)).elem.backgroundColor = "#ccc") := by
  obtain ⟨hlen, hoth, hon, hoff⟩ :=
    colorInv_run (flashnetQueue data).length e (flashnetInit data e)
      (colorInv_init data e) n
  refine ⟨?_, hoff, ?_⟩
  · intro ht
    obtain ⟨hst, hfresh, hmid⟩ := hon ht
    refine ⟨?_, ?_, ?_⟩
    · intro h0
      have hL : (tick^[n] (flashnetInit data e)).queue.length
          = (flashnetQueue data).length := by omega
      rw [hfresh hL]
    · intro hodd
      have hlt : (tick^[n] (flashnetInit data e)).queue.length
          < (flashnetQueue data).length := by omega
      have hstate : (tick^[n] (flashnetInit data e)).state = true := by
        rw [hst, hodd]
        simp
      rw [hmid hlt, hstate]
      simp
    · intro hne heven
      have hlt : (tick^[n] (flashnetInit data e)).queue.length
          < (flashnetQueue data).length := by omega
      have hstate : (tick^[n] (flashnetInit data e)).state = false := by
        rw [hst, heven]
        simp
      rw [hmid hlt, hstate]
      simp
  · by_cases ht : (tick^[n] (flashnetInit data e)).timerOn = true
    · obtain ⟨hst, hfresh, hmid⟩ := hon ht
      by_cases hL : (tick^[n] (flashnetInit data e)).queue.length
          = (flashnetQueue data).length
      · left
        rw [hfresh hL]
      · have hlt : (tick^[n] (flashnetInit data e)).queue.length
            < (flashnetQueue data).length := by omega
        rw [hmid hlt]
        cases hsv : (tick^[n] (flashnetInit data e)).state
        · right; right; left
          simp
        · right; left
          simp
    · right; right; right
      exact hoff (by simpa using ht)

theorem flashnet_color_alternation_witness :
    (tick^[0] (flashnetInit [] ⟨"x", 5⟩)).elem.backgroundColor = "x" ∧
    (tick^[1] (flashnetInit [] ⟨"x", 5⟩)).elem.backgroundColor = "#888" ∧
    (tick^[2] (flashnetInit [] ⟨"x", 5⟩)).elem.backgroundColor = "#eee" ∧
    (tick^[30] (flashnetInit [] ⟨"x", 5⟩)).elem.backgroundColor = "#ccc" :=
  ⟨((flashnet_color_alternation [] ⟨"x", 5⟩ 0).1 (by decide)).1 (by decide),
   ((flashnet_color_alternation [] ⟨"x", 5⟩ 1).1 (by decide)).2.1 (by decide),
   ((flashnet_color_alternation [] ⟨"x", 5⟩ 2).1 (by decide)).2.2 (by decide) (by decide),
   (flashnet_color_alternation [] ⟨"x", 5⟩ 30).2.1 (by decide)⟩

/-- C7: the encoding step is pure and deterministic — two flashnetSend
calls with identical payloads build identical queues and checksum bytes
whatever elements they drive, and queue construction leaves the element
exactly as it was passed in. -/
theorem flashnet_pure_deterministic (data1 data2 : List Nat) (e1 e2 : Elem)
    (h : data1 = data2) :
    (flashnetInit data1 e1).queue = (flashnetInit data2 e2).queue ∧
    flashnetChecksumByte data1 = flashnetChecksumByte data2 ∧
    (flashnetInit data1 e1).elem = e1 ∧
    (flashnetInit data1 e1).state = (flashnetInit data2 e2).state := by
  subst h
  exact ⟨rfl, rfl, rfl, rfl⟩

theorem flashnet_pure_deterministic_witness :
    (flashnetInit [1, 2, 3] ⟨"red", 0⟩).queue
      = (flashnetInit [1, 2, 3] ⟨"blue", 9⟩).queue ∧
    flashnetChecksumByte [1, 2, 3] = flashnetChecksumByte [1, 2, 3] ∧
    (flashnetInit [1, 2, 3] ⟨"red", 0⟩).elem = ⟨"red", 0⟩ ∧
    (flashnetInit [1, 2, 3] ⟨"red", 0⟩).state
      = (flashnetInit [1, 2, 3] ⟨"blue", 9⟩).state :=
  flashnet_pure_deterministic [1, 2, 3] [1, 2, 3] ⟨"red", 0⟩ ⟨"blue", 9⟩ rfl

/-- C10: flashnetSend itself leaves the element untouched — before the
first timer tick the element is exactly the one passed in — and a tick
never modifies any property of the element other than its
backgroundColor. -/
theorem flashnet_frame_effect (data : List Nat) (e : Elem) (s : TxState) :
    (flashnetInit data e).elem = e ∧ (tick s).elem.other = s.elem.other := by
  refine ⟨rfl, ?_⟩
  by_cases ht : s.timerOn = true
  · rcases hq : s.queue with _ | ⟨w, rest⟩
    · rw [tick_emptyQueue s ht hq]
    · by_cases hw : w ≤ 1
      · rw [tick_pop s w rest ht hq hw]
      · rw [tick_dec s w rest ht hq (by omega)]
  · rw [tick_timerOff s (by simpa using ht)]

/-- C3 counterexample: a payload of length 71 does NOT fail — while the
spec-modelled contract rejects it with PayloadTooLarge, the source
encodes it in full, leaving a complete 592-pulse queue (8·72 + 16)
rather than an untouched one. -/
theorem flashnet_payload71_counterexample :
    specEncodeContract (List.replicate 71 65) = Except.error "PayloadTooLarge" ∧
    flashnetQueue (List.replicate 71 65) ≠ [] ∧
    (flashnetQueue (List.replicate 71 65)).length = 592 := by
  have h592 : (flashnetQueue (List.replicate 71 65)).length = 592 := by
    rw [flashnetQueue_length]
    norm_num
  refine ⟨?_, ?_, h592⟩
  · simp [specEncodeContract]
  · intro h
    rw [h] at h592
    simp at h592

/-- C3 amended: flashnetSend performs no length check — every payload,
length 70 and 71 alike, is fully encoded into a non-empty queue of
8·(n+1) + 16 pulse widths ending in the END pulse; no PayloadTooLarge
failure exists in the sender. -/
theorem flashnet_no_length_check (data : List Nat) :
    (flashnetQueue data).length = 8 * (data.length + 1) + 16 ∧
    flashnetQueue data ≠ [] ∧
    (flashnetQueue data).getLast? = some 4 := by
  have hl := flashnetQueue_length data
  refine ⟨by omega, ?_, ?_⟩
  · intro h
    rw [h] at hl
    simp at hl
  · show ((encodeStep (flashnetEnc data) (flashnetChecksumByte data)).queue
      ++ [4]).getLast? = some 4
    exact List.getLast?_concat _

end FlashNet
